import Mathlib

/-!
# Verification of the NetPlusGames IPv4 subnet arithmetic and routing core

Shallow embedding of the arithmetic core of the repository's quiz games:

* `src/games/subnetting/7-second-subnetting.py` — mask/magic-number/
  network/broadcast/host-range helpers and the octet-wise step-by-step
  derivation (`calculate_magic_number`, `changed_octet_index`,
  `network_broadcast`, `host_range`, `locate_block`,
  `step_by_step_explanation`);
* `src/games/subnetting/magic_number_sprint.py` — `detect_octet`,
  `magic_number`;
* `src/games/subnetting/Network_Address_Sprint.py` — `network_of`,
  `magic_number_for_cidr`;
* `src/games/routing/next_hop_trainer.py` — `longest_prefix_match`,
  `build_routing_table`.

IPv4 addresses and networks are represented by their unsigned integer
values (`Nat`), as CPython's `ipaddress` module does internally.  The
library operations the scripts call are embedded by their integer
semantics: for IPv4, `netmask = ALL_ONES ^ (ALL_ONES >> prefixlen)`,
`hostmask = netmask ^ ALL_ONES`, `network_address = address & netmask`
(with `strict=False`), `broadcast_address = network_address | hostmask`,
`packed` splits an integer into 4 big-endian octets, `a in net` tests
`network_address ≤ a ≤ broadcast_address`, and `hosts()` (on prefixes
`≤ 30`, the only ones the scripts pass to it) enumerates the addresses
strictly between network and broadcast.

Randomized inputs (`random.choice`, `random.randint`, `random.shuffle`)
of `build_routing_table` are passed in as explicit parameters, with the
generator's guaranteed ranges stated as hypotheses; the final shuffle is
a permutation of the de-duplicated list, so the theorems about the
returned table are stated for any permutation of it.
-/

/-- `ipaddress._ALL_ONES` for IPv4: `2 ** 32 - 1`. -/
def ALLONES : Nat := 2 ^ 32 - 1

/-- Integer value of the netmask for a prefix length, as computed by
`ipaddress._ip_int_from_prefix`: `ALL_ONES ^ (ALL_ONES >> prefixlen)`. -/
def maskInt (L : Nat) : Nat := ALLONES ^^^ (ALLONES >>> L)

/-- Integer value of the hostmask: `netmask ^ ALL_ONES`. -/
def hostmaskInt (L : Nat) : Nat := maskInt L ^^^ ALLONES

/-- Integer value of `IPv4Network((ip, L), strict=False).network_address`:
the address with the host bits cleared, `ip & netmask`. -/
def networkInt (A L : Nat) : Nat := A &&& maskInt L

/-- Integer value of `broadcast_address`: `network_address | hostmask`. -/
def broadcastInt (A L : Nat) : Nat := networkInt A L ||| hostmaskInt L

/-- The 4 big-endian octets of the netmask, as `netmask.packed` yields
them (`mask_octets_from_cidr` in `7-second-subnetting.py`). -/
def maskOctets (L : Nat) : List Nat :=
  [maskInt L >>> 24 &&& 255, maskInt L >>> 16 &&& 255,
   maskInt L >>> 8 &&& 255, maskInt L &&& 255]

/-- `calculate_magic_number` from `7-second-subnetting.py`: scan the mask
octets, return `256 - o` for the first octet `o ≠ 255`, else `1`. -/
def calculate_magic_number (cidr : Nat) : Nat :=
  match (maskOctets cidr).find? (fun o => o != 255) with
  | some o => 256 - o
  | none => 1

/-- `changed_octet_index` from `7-second-subnetting.py`: 0-based index of
the first mask octet `≠ 255`, defaulting to `3`. -/
def changed_octet_index (cidr : Nat) : Nat :=
  match (maskOctets cidr).findIdx? (fun o => o != 255) with
  | some i => i
  | none => 3

/-- `detect_octet` from `magic_number_sprint.py`: 1-based index of the
first mask octet `≠ 255`, defaulting to `4`. -/
def detect_octet (cidr : Nat) : Nat :=
  match (maskOctets cidr).findIdx? (fun b => b != 255) with
  | some i => i + 1
  | none => 4

/-- `magic_number` from `magic_number_sprint.py`: `val = 256 -
mask_bytes[octet-1]`, returned if positive, else `256`. -/
def magic_number (cidr : Nat) : Nat :=
  let octet := detect_octet cidr
  let val := 256 - (maskOctets cidr).getD (octet - 1) 0
  if 0 < val then val else 256

/-- `magic_number_for_cidr` from `Network_Address_Sprint.py`: the pair
`(octet_index, magic_number)` from the first mask octet `≠ 255`, with
the `/32` fallback `(4, 1)`. -/
def magic_number_for_cidr (cidr : Nat) : Nat × Nat :=
  match (maskOctets cidr).findIdx? (fun p => p != 255) with
  | some i => (i + 1, 256 - (maskOctets cidr).getD i 0)
  | none => (4, 1)

/-- `network_broadcast` from `7-second-subnetting.py`: the (network,
broadcast) integer pair of `ip_network(f"{ip}/{cidr}", strict=False)`. -/
def network_broadcast (ip cidr : Nat) : Nat × Nat :=
  (networkInt ip cidr, broadcastInt ip cidr)

/-- `network_of` from `Network_Address_Sprint.py`. -/
def network_of (ip cidr : Nat) : Nat := networkInt ip cidr

/-- CPython `hosts()` on a network of prefix length `≤ 30`: the addresses
strictly between network and broadcast.  (`host_range` only calls it for
such prefixes.) -/
def hostsList (ip cidr : Nat) : List Nat :=
  List.range' (networkInt ip cidr + 1)
    (broadcastInt ip cidr - networkInt ip cidr - 1)

/-- `host_range` from `7-second-subnetting.py`: `None` when
`prefixlen >= 31`, else the pair `(hosts[0], hosts[-1])`. -/
def host_range (ip cidr : Nat) : Option (Nat × Nat) :=
  if 31 ≤ cidr then none
  else some ((hostsList ip cidr).headD 0, (hostsList ip cidr).getLastD 0)

/-- `locate_block` from `7-second-subnetting.py`:
`start = (value // magic) * magic`, `end = min(start + magic - 1, 255)`. -/
def locate_block (value magic : Nat) : Nat × Nat :=
  ((value / magic) * magic, min ((value / magic) * magic + magic - 1) 255)

/-- The network-address octets as `step_by_step_explanation` derives them:
copy the IP octets, set the changing octet to the block start, set every
later octet to `0`. -/
def step_network_octets (ipOct : List Nat) (cidr : Nat) : List Nat :=
  let mi := changed_octet_index cidr
  let m := calculate_magic_number cidr
  let s := (locate_block (ipOct.getD mi 0) m).1
  ((ipOct.set mi s).take (mi + 1)) ++ List.replicate (3 - mi) 0

/-- The broadcast-address octets as `step_by_step_explanation` derives
them: set the changing octet to the block end, later octets to `255`. -/
def step_broadcast_octets (ipOct : List Nat) (cidr : Nat) : List Nat :=
  let mi := changed_octet_index cidr
  let m := calculate_magic_number cidr
  let e := (locate_block (ipOct.getD mi 0) m).2
  ((ipOct.set mi e).take (mi + 1)) ++ List.replicate (3 - mi) 255

/-- The 4 big-endian octets of an address integer (dotted-quad form). -/
def toOctets (n : Nat) : List Nat :=
  [n >>> 24 &&& 255, n >>> 16 &&& 255, n >>> 8 &&& 255, n &&& 255]

/-- Address integer of a dotted quad `a0.a1.a2.a3`. -/
def fromOctets (a0 a1 a2 a3 : Nat) : Nat :=
  ((a0 * 256 + a1) * 256 + a2) * 256 + a3

/-- An IPv4 network as the games build it: the (already normalized)
network-address integer plus the prefix length. -/
structure Net where
  addr : Nat
  len : Nat
deriving Repr, DecidableEq

/-- `IPv4Network((ip, L), strict=False)`: host bits are cleared. -/
def Net.ofIp (a L : Nat) : Net := ⟨networkInt a L, L⟩

/-- `broadcast_address` of a network value. -/
def Net.bcast (n : Net) : Nat := n.addr ||| hostmaskInt n.len

/-- Python `ip in network`:
`network_address ≤ ip ≤ broadcast_address`. -/
def Net.containsIp (n : Net) (ip : Nat) : Bool :=
  decide (n.addr ≤ ip) && decide (ip ≤ n.bcast)

/-- A routing-table entry of `next_hop_trainer.py`: the `dest` /
`next_hop` / `iface` / `metric` / `desc` dict. -/
structure Route where
  dest : Net
  next_hop : String
  iface : String
  metric : Nat
  desc : String
deriving Repr, DecidableEq

/-- The sort key comparison of `longest_prefix_match`: ascending in
`(-prefixlen, metric)`, i.e. `a` comes no later than `b` iff `a` has the
longer prefix, or equal prefixes and `a.metric ≤ b.metric`. -/
def keyLe (a b : Route) : Bool :=
  decide (b.dest.len < a.dest.len) ||
    (decide (a.dest.len = b.dest.len) && decide (a.metric ≤ b.metric))

/-- Stable insertion of a route into a key-sorted list: `x` goes before
the first element it compares `keyLe` with.  (Python's `sorted` is
stable; a stable sort's output is characterized by these insertions.) -/
def insertR (x : Route) : List Route → List Route
  | [] => [x]
  | y :: l => if keyLe x y then x :: y :: l else y :: insertR x l

/-- Stable sort by `(-prefixlen, metric)`, the key `longest_prefix_match`
passes to `sorted`. -/
def sortRoutes : List Route → List Route
  | [] => []
  | x :: l => insertR x (sortRoutes l)

/-- `longest_prefix_match` from `next_hop_trainer.py`: filter the routes
containing `ip`, sort by `(-prefixlen, metric)`, return
`(matches_sorted[0] if matches_sorted else None, matches_sorted)`. -/
def longest_prefix_match (routes : List Route) (ip : Nat) :
    Option Route × List Route :=
  let ms := sortRoutes (routes.filter (fun r => r.dest.containsIp ip))
  (ms.head?, ms)

/-- First element of a list attaining the minimal `keyLe`-key (earlier
elements win ties).  Used to characterize the head of the stable sort. -/
def firstMin : List Route → Option Route
  | [] => none
  | x :: l =>
    match firstMin l with
    | none => some x
    | some m => if keyLe x m then some x else some m

/-- One step of the de-duplication loop of `build_routing_table`:
`if key not in unique or r["metric"] < unique[key]["metric"]:
unique[key] = r`, over an insertion-ordered dict keyed by `str(dest)`
(injective in the `(addr, len)` pair). A fresh key is appended; a
strictly better metric replaces the entry in place. -/
def dedupStep (acc : List Route) (r : Route) : List Route :=
  match acc.find? (fun x => decide (x.dest = r.dest)) with
  | none => acc ++ [r]
  | some x =>
    if r.metric < x.metric then
      acc.map (fun y => if y.dest = r.dest then r else y)
    else acc

/-- The whole de-duplication pass: `list(unique.values())`. -/
def dedupRoutes (routes : List Route) : List Route :=
  routes.foldl dedupStep []

/-- The `"Tie A"` route `build_routing_table` injects at difficulty ≥ 3
(metric `10`). -/
def tieRouteA (base : Net) (nh ifc : String) : Route :=
  ⟨base, nh, ifc, 10, "Tie A"⟩

/-- The `"Tie B"` route injected right after it (metric `5`). -/
def tieRouteB (base : Net) (nh ifc : String) : Route :=
  ⟨base, nh, ifc, 5, "Tie B"⟩

/-- The route list `build_routing_table` assembles before de-duplication:
the default route, then the `n-1` randomly generated routes (passed here
as `gens`), then — when `difficulty >= 3` and at least 3 routes exist —
the two equal-destination tie routes with metrics 10 and 5.  The random
draws are parameters. -/
def preDedupRoutes (difficulty : Nat) (defaultRoute : Route)
    (gens : List Route) (tieBase : Net) (tnh1 ti1 tnh2 ti2 : String) :
    List Route :=
  let routes := defaultRoute :: gens
  if 3 ≤ difficulty ∧ 3 ≤ routes.length then
    routes ++ [tieRouteA tieBase tnh1 ti1, tieRouteB tieBase tnh2 ti2]
  else routes

/-- `build_routing_table` up to the final `random.shuffle` (a
permutation of this list): assemble the routes, then de-duplicate
identical destinations keeping the best metric. -/
def build_routing_table (difficulty : Nat) (defaultRoute : Route)
    (gens : List Route) (tieBase : Net) (tnh1 ti1 tnh2 ti2 : String) :
    List Route :=
  dedupRoutes (preDedupRoutes difficulty defaultRoute gens tieBase
    tnh1 ti1 tnh2 ti2)

/-- Invariant of the de-duplication loop: the accumulator holds pairwise
distinct destinations; each entry is one of the processed routes and has
a metric no larger than any processed route with the same destination;
and every processed destination is represented. -/
def DedupInv (acc done : List Route) : Prop :=
  acc.Pairwise (fun a b => a.dest ≠ b.dest) ∧
  (∀ r ∈ acc, r ∈ done ∧
    ∀ s ∈ done, s.dest = r.dest → r.metric ≤ s.metric) ∧
  (∀ s ∈ done, ∃ r ∈ acc, r.dest = s.dest)

example : calculate_magic_number 26 = 64 := by decide
example : calculate_magic_number 8 = 256 := by decide
example : calculate_magic_number 32 = 1 := by decide
example : magic_number 26 = 64 := by decide
example : detect_octet 20 = 3 := by decide
example : network_broadcast (fromOctets 192 168 35 67) 20 =
    (fromOctets 192 168 32 0, fromOctets 192 168 47 255) := by decide

/-! ## Characterization of the mask arithmetic -/

/-- The library netmask is the 32-bit value with the top `L` bits set. -/
theorem maskInt_eq : ∀ L : Nat, L ≤ 32 → maskInt L = 2 ^ 32 - 2 ^ (32 - L) := by
  decide

/-- The hostmask is the low `32 - L` bits, all set. -/
theorem hostmaskInt_eq : ∀ L : Nat, L ≤ 32 →
    hostmaskInt L = 2 ^ (32 - L) - 1 := by
  decide

/-- ANDing a 32-bit value with the top-`L`-bits mask floors it to a
multiple of `2 ^ (32 - L)`. -/
theorem and_high_mask {A : Nat} (L : Nat) (hA : A < 2 ^ 32) (hL : L ≤ 32) :
    A &&& (2 ^ 32 - 2 ^ (32 - L)) = 2 ^ (32 - L) * (A / 2 ^ (32 - L)) := by
  have hsplit : 2 ^ 32 - 2 ^ (32 - L) = 2 ^ (32 - L) * (2 ^ L - 1) := by
    rw [Nat.mul_sub_left_distrib, ← Nat.pow_add, Nat.mul_one]
    congr 2
    omega
  rw [hsplit]
  apply Nat.eq_of_testBit_eq
  intro j
  rw [Nat.testBit_and, Nat.testBit_mul_pow_two, Nat.testBit_mul_pow_two,
    Nat.testBit_two_pow_sub_one]
  by_cases hjk : 32 - L ≤ j
  · have hdivbit : Nat.testBit (A / 2 ^ (32 - L)) (j - (32 - L)) =
        Nat.testBit A j := by
      rw [← Nat.shiftRight_eq_div_pow, Nat.testBit_shiftRight]
      congr 1
      omega
    by_cases hjL : j - (32 - L) < L
    · simp [hjk, hjL, hdivbit]
    · have hj32 : 32 ≤ j := by omega
      have hA' : A < 2 ^ j :=
        lt_of_lt_of_le hA (Nat.pow_le_pow_right (by norm_num) hj32)
      have hbit : Nat.testBit A j = false := Nat.testBit_lt_two_pow hA'
      simp [hjk, hjL, hbit, hdivbit]
  · simp [hjk]

/-- The network address, arithmetically: `A` floored to a multiple of the
block size `2 ^ (32 - L)`. -/
theorem networkInt_eq {A : Nat} (L : Nat) (hA : A < 2 ^ 32) (hL : L ≤ 32) :
    networkInt A L = 2 ^ (32 - L) * (A / 2 ^ (32 - L)) := by
  rw [networkInt, maskInt_eq L hL]
  exact and_high_mask L hA hL

/-- The broadcast address, arithmetically: network plus the block size
minus one. -/
theorem broadcastInt_eq {A : Nat} (L : Nat) (hA : A < 2 ^ 32) (hL : L ≤ 32) :
    broadcastInt A L = networkInt A L + (2 ^ (32 - L) - 1) := by
  rw [broadcastInt, hostmaskInt_eq L hL, networkInt_eq L hA hL]
  rw [← Nat.mul_add_lt_is_or (Nat.sub_lt (Nat.two_pow_pos _) Nat.one_pos) _]

example : networkInt 3232244547 20 = 3232243712 := by
  rw [networkInt_eq 20 (by norm_num) (by norm_num)]
  norm_num

/-! ## Claims C3–C7: the subnet arithmetic helpers -/

/-- C3: for every 32-bit address `A` and prefix length `L ≤ 32`,
`network_broadcast` returns `network = A AND mask(L)` and `broadcast =
network OR (NOT mask(L))` within 32 bits, where `mask(L)` has the top
`L` bits set; `L = 0` gives network `0.0.0.0` and broadcast
`255.255.255.255`, and `L = 32` gives `network = broadcast = A`. -/
theorem C3_network_broadcast_formula (A L : Nat) (hA : A < 2 ^ 32)
    (hL : L ≤ 32) :
    (network_broadcast A L).1 = A &&& (2 ^ 32 - 2 ^ (32 - L)) ∧
    (network_broadcast A L).2 =
      (network_broadcast A L).1 ||| ((2 ^ 32 - 2 ^ (32 - L)) ^^^ (2 ^ 32 - 1)) ∧
    (L = 0 → (network_broadcast A L).1 = 0 ∧
      (network_broadcast A L).2 = 2 ^ 32 - 1) ∧
    (L = 32 → (network_broadcast A L).1 = A ∧
      (network_broadcast A L).2 = A) := by
  refine ⟨?_, ?_, ?_, ?_⟩
  · show networkInt A L = _
    rw [networkInt, maskInt_eq L hL]
  · show broadcastInt A L = networkInt A L ||| _
    rw [broadcastInt, hostmaskInt, maskInt_eq L hL]
    have hall : ALLONES = 2 ^ 32 - 1 := rfl
    rw [hall]
  · rintro rfl
    constructor
    · show networkInt A 0 = 0
      have h0 : maskInt 0 = 0 := by decide
      rw [networkInt, h0, Nat.and_zero]
    · show broadcastInt A 0 = 2 ^ 32 - 1
      have h0 : maskInt 0 = 0 := by decide
      have h1 : hostmaskInt 0 = 2 ^ 32 - 1 := by decide
      rw [broadcastInt, networkInt, h0, Nat.and_zero, h1, Nat.zero_or]
  · rintro rfl
    have hnet : networkInt A 32 = A := by
      have h32 : maskInt 32 = 2 ^ 32 - 1 := by decide
      rw [networkInt, h32, Nat.and_pow_two_sub_one_eq_mod,
        Nat.mod_eq_of_lt hA]
    constructor
    · exact hnet
    · show broadcastInt A 32 = A
      have h1 : hostmaskInt 32 = 0 := by decide
      rw [broadcastInt, h1, Nat.or_zero, hnet]

/-- Witness for C3 at the spec's end-to-end vector `192.168.35.67/20`. -/
theorem C3_network_broadcast_formula_witness :
    (network_broadcast (fromOctets 192 168 35 67) 20).1 =
      fromOctets 192 168 35 67 &&& (2 ^ 32 - 2 ^ (32 - 20)) :=
  (C3_network_broadcast_formula (fromOctets 192 168 35 67) 20
    (by norm_num [fromOctets]) (by norm_num)).1

/-- C4: `network(A,L) ≤ A ≤ broadcast(A,L)` as unsigned 32-bit integers,
and `broadcast − network + 1 = 2 ^ (32 − L)`. -/
theorem C4_bounds_and_block_size (A L : Nat) (hA : A < 2 ^ 32)
    (hL : L ≤ 32) :
    networkInt A L ≤ A ∧ A ≤ broadcastInt A L ∧
    broadcastInt A L - networkInt A L + 1 = 2 ^ (32 - L) := by
  have hnet := networkInt_eq L hA hL
  have hbc := broadcastInt_eq L hA hL
  have hdm := Nat.div_add_mod A (2 ^ (32 - L))
  have hmod : A % 2 ^ (32 - L) < 2 ^ (32 - L) :=
    Nat.mod_lt _ (Nat.two_pow_pos _)
  refine ⟨?_, ?_, ?_⟩ <;> omega

/-- Witness for C4 at `192.168.35.67/20`. -/
theorem C4_bounds_and_block_size_witness :
    networkInt (fromOctets 192 168 35 67) 20 ≤ fromOctets 192 168 35 67 ∧
    fromOctets 192 168 35 67 ≤ broadcastInt (fromOctets 192 168 35 67) 20 ∧
    broadcastInt (fromOctets 192 168 35 67) 20 -
      networkInt (fromOctets 192 168 35 67) 20 + 1 = 2 ^ (32 - 20) :=
  C4_bounds_and_block_size (fromOctets 192 168 35 67) 20
    (by norm_num [fromOctets]) (by norm_num)

/-- C5: for every `L ≤ 32` the magic number is `256` minus the changing
(first non-255) mask octet, with octet `0` yielding `256`; it is `256`
exactly when `L` is a multiple of 8 with `L < 32`, it is `1` at `L = 32`,
it is always a power of two in `{1, …, 256}`, and it divides 256.  The
two implementations (`calculate_magic_number`, `magic_number`) agree. -/
theorem C5_magic_number_facts : ∀ L : Nat, L ≤ 32 →
    calculate_magic_number L =
      256 - (maskOctets L).getD (changed_octet_index L) 0 ∧
    magic_number L = calculate_magic_number L ∧
    (calculate_magic_number L = 256 ↔ L % 8 = 0 ∧ L < 32) ∧
    (L = 32 → calculate_magic_number L = 1) ∧
    calculate_magic_number L ∈ [1, 2, 4, 8, 16, 32, 64, 128, 256] ∧
    256 % calculate_magic_number L = 0 := by
  decide

/-- Witness for C5 at `L = 26` (magic number 64). -/
theorem C5_magic_number_facts_witness :
    calculate_magic_number 26 =
      256 - (maskOctets 26).getD (changed_octet_index 26) 0 ∧
    magic_number 26 = calculate_magic_number 26 ∧
    (calculate_magic_number 26 = 256 ↔ 26 % 8 = 0 ∧ 26 < 32) ∧
    (26 = 32 → calculate_magic_number 26 = 1) ∧
    calculate_magic_number 26 ∈ [1, 2, 4, 8, 16, 32, 64, 128, 256] ∧
    256 % calculate_magic_number 26 = 0 :=
  C5_magic_number_facts 26 (by norm_num)

/-- C7: `detect_octet` (and the first component of
`magic_number_for_cidr`) is the 1-based index of the first mask octet
`≠ 255`, equal to `min(L / 8 + 1, 4)`, in `1..4`; at `L = 32` all four
octets are 255 and the result is 4; octets before it are 255 and (for
`L < 32`) the octet at it differs from 255. -/
theorem C7_changing_octet : ∀ L : Nat, L ≤ 32 →
    detect_octet L = min (L / 8 + 1) 4 ∧
    (magic_number_for_cidr L).1 = detect_octet L ∧
    1 ≤ detect_octet L ∧ detect_octet L ≤ 4 ∧
    (∀ i, i < 4 → i + 1 < detect_octet L →
      (maskOctets L).getD i 0 = 255) ∧
    (L < 32 → (maskOctets L).getD (detect_octet L - 1) 0 ≠ 255) ∧
    (L = 32 → detect_octet L = 4 ∧ ∀ o ∈ maskOctets L, o = 255) := by
  decide

/-- Witness for C7 at `L = 20` (changing octet 3). -/
theorem C7_changing_octet_witness :
    detect_octet 20 = min (20 / 8 + 1) 4 ∧
    (magic_number_for_cidr 20).1 = detect_octet 20 :=
  ⟨(C7_changing_octet 20 (by norm_num)).1,
   (C7_changing_octet 20 (by norm_num)).2.1⟩

/-- C6: `host_range(A, L)` is `None` exactly when `L ≥ 31`, and for
`L ≤ 30` it is the inclusive pair `(network + 1, broadcast − 1)`. -/
theorem C6_host_range (A L : Nat) (hA : A < 2 ^ 32) (hL : L ≤ 32) :
    (host_range A L = none ↔ 31 ≤ L) ∧
    (L ≤ 30 →
      host_range A L =
        some (networkInt A L + 1, broadcastInt A L - 1)) := by
  constructor
  · rw [host_range]
    by_cases h : 31 ≤ L <;> simp [h]
  · intro h30
    have hk : 2 ≤ 32 - L := by omega
    have hbc := broadcastInt_eq L hA hL
    have hsize : broadcastInt A L - networkInt A L - 1 =
        (2 ^ (32 - L) - 3) + 1 := by
      have : 4 ≤ 2 ^ (32 - L) :=
        le_trans (by norm_num) (Nat.pow_le_pow_right (by norm_num) hk)
      omega
    rw [host_range, if_neg (by omega), hostsList, hsize,
      List.range'_1_concat]
    have hhead : (List.range' (networkInt A L + 1) (2 ^ (32 - L) - 3) ++
        [networkInt A L + 1 + (2 ^ (32 - L) - 3)]).headD 0 =
        networkInt A L + 1 := by
      rw [List.headD_eq_head?_getD]
      rcases Nat.eq_zero_or_pos (2 ^ (32 - L) - 3) with h0 | hpos
      · rw [h0]
        simp
      · rw [List.head?_append_of_ne_nil]
        · rw [List.head?_range']
          simp [Nat.pos_iff_ne_zero.mp hpos]
        · simp [List.range'_ne_nil, Nat.pos_iff_ne_zero.mp hpos]
    rw [hhead, List.getLastD_concat]
    have : 4 ≤ 2 ^ (32 - L) :=
      le_trans (by norm_num) (Nat.pow_le_pow_right (by norm_num) hk)
    congr 1
    congr 1
    omega

/-- Closed form of the 0-based changing octet index. -/
theorem changed_octet_index_eq : ∀ L : Nat, L ≤ 32 →
    changed_octet_index L = min (L / 8) 3 := by
  decide

/-- Closed form of the magic number. -/
theorem calculate_magic_number_eq : ∀ L : Nat, L ≤ 32 →
    calculate_magic_number L = if L = 32 then 1 else 2 ^ (8 - L % 8) := by
  decide

/-- The octets of an address, by division and remainder. -/
theorem toOctets_div (n : Nat) :
    toOctets n =
      [n / 16777216 % 256, n / 65536 % 256, n / 256 % 256, n % 256] := by
  have h : ∀ x : Nat, x &&& 255 = x % 256 := by
    intro x
    have hx := Nat.and_pow_two_sub_one_eq_mod x 8
    norm_num at hx
    exact hx
  simp only [toOctets, Nat.shiftRight_eq_div_pow, h]

set_option maxHeartbeats 4000000

/-- C9: the octet-wise derivation of `step_by_step_explanation` agrees
with the bitwise computation: with changing octet `mi`, block size `m`,
block start `(A[mi] / m) * m` and block end `start + m - 1` (clamped at
255), setting octet `mi` to the start and all later octets to 0 yields
the octets of `network(A, L)`, and setting octet `mi` to the end and all
later octets to 255 yields the octets of `broadcast(A, L)`. -/
theorem C9_octetwise_agrees_bitwise (a0 a1 a2 a3 L : Nat)
    (h0 : a0 < 256) (h1 : a1 < 256) (h2 : a2 < 256) (h3 : a3 < 256)
    (hL : L ≤ 32) :
    toOctets (networkInt (fromOctets a0 a1 a2 a3) L) =
      step_network_octets [a0, a1, a2, a3] L ∧
    toOctets (broadcastInt (fromOctets a0 a1 a2 a3) L) =
      step_broadcast_octets [a0, a1, a2, a3] L := by
  have hA : fromOctets a0 a1 a2 a3 < 2 ^ 32 := by
    have h32 : (2 : Nat) ^ 32 = 4294967296 := by norm_num
    rw [h32]
    unfold fromOctets
    omega
  have hbc := broadcastInt_eq L hA hL
  have hnet := networkInt_eq L hA hL
  rw [hbc, hnet, toOctets_div, toOctets_div]
  simp only [step_network_octets, step_broadcast_octets, locate_block,
    changed_octet_index_eq L hL, calculate_magic_number_eq L hL,
    fromOctets]
  clear hbc hnet hA
  interval_cases L <;> norm_num [List.replicate] <;> omega

/-- Witness for C9 at `192.168.35.67/20`. -/
theorem C9_octetwise_agrees_bitwise_witness :
    toOctets (networkInt (fromOctets 192 168 35 67) 20) =
      step_network_octets [192, 168, 35, 67] 20 ∧
    toOctets (broadcastInt (fromOctets 192 168 35 67) 20) =
      step_broadcast_octets [192, 168, 35, 67] 20 :=
  C9_octetwise_agrees_bitwise 192 168 35 67 20 (by norm_num) (by norm_num)
    (by norm_num) (by norm_num) (by norm_num)

set_option maxHeartbeats 400000

/-! ## The route sort: order properties of `keyLe` and the stable
insertion sort -/

theorem keyLe_refl (a : Route) : keyLe a a = true := by
  simp [keyLe]

theorem keyLe_total (a b : Route) : keyLe a b = true ∨ keyLe b a = true := by
  simp only [keyLe, Bool.or_eq_true, Bool.and_eq_true, decide_eq_true_eq]
  omega

theorem keyLe_trans {a b c : Route} (h1 : keyLe a b = true)
    (h2 : keyLe b c = true) : keyLe a c = true := by
  simp only [keyLe, Bool.or_eq_true, Bool.and_eq_true,
    decide_eq_true_eq] at h1 h2 ⊢
  omega

theorem keyLe_of_not (a b : Route) (h : ¬keyLe a b = true) :
    keyLe b a = true :=
  (keyLe_total a b).resolve_left h

theorem insertR_perm (x : Route) (l : List Route) :
    (insertR x l).Perm (x :: l) := by
  induction l with
  | nil => simp [insertR]
  | cons y t ih =>
    rw [insertR]
    by_cases h : keyLe x y
    · rw [if_pos h]
    · rw [if_neg h]
      exact (List.Perm.cons y ih).trans (List.Perm.swap x y t)

theorem sortRoutes_perm (l : List Route) : (sortRoutes l).Perm l := by
  induction l with
  | nil => exact List.Perm.refl _
  | cons x t ih =>
    rw [sortRoutes]
    exact (insertR_perm x (sortRoutes t)).trans (List.Perm.cons x ih)

theorem insertR_pairwise {x : Route} {l : List Route}
    (hl : l.Pairwise (fun a b => keyLe a b = true)) :
    (insertR x l).Pairwise (fun a b => keyLe a b = true) := by
  induction l with
  | nil => simp [insertR]
  | cons y t ih =>
    rcases List.pairwise_cons.mp hl with ⟨hyt, ht⟩
    rw [insertR]
    by_cases h : keyLe x y
    · rw [if_pos h]
      refine List.pairwise_cons.mpr ⟨?_, hl⟩
      intro b hb
      rcases List.mem_cons.mp hb with rfl | hbt
      · exact h
      · exact keyLe_trans h (hyt b hbt)
    · rw [if_neg h]
      refine List.pairwise_cons.mpr ⟨?_, ih ht⟩
      intro b hb
      rcases List.mem_cons.mp ((insertR_perm x t).mem_iff.mp hb)
        with rfl | hbt
      · exact keyLe_of_not _ y h
      · exact hyt b hbt

theorem sortRoutes_pairwise (l : List Route) :
    (sortRoutes l).Pairwise (fun a b => keyLe a b = true) := by
  induction l with
  | nil => simp [sortRoutes]
  | cons x t ih =>
    rw [sortRoutes]
    exact insertR_pairwise ih

theorem head?_insertR (x : Route) (l : List Route) :
    (insertR x l).head? =
      some (match l.head? with
        | none => x
        | some y => if keyLe x y then x else y) := by
  cases l with
  | nil => rfl
  | cons y t =>
    rw [insertR]
    by_cases h : keyLe x y <;> simp [h]

theorem head?_sortRoutes (l : List Route) :
    (sortRoutes l).head? = firstMin l := by
  induction l with
  | nil => rfl
  | cons x t ih =>
    rw [sortRoutes, head?_insertR, firstMin, ← ih]
    cases h : (sortRoutes t).head? with
    | none => simp [h]
    | some y =>
      show some (if keyLe x y = true then x else y) =
        if keyLe x y = true then some x else some y
      by_cases hk : keyLe x y <;> simp [hk]

theorem firstMin_eq_none {l : List Route} :
    firstMin l = none ↔ l = [] := by
  cases l with
  | nil => simp [firstMin]
  | cons x t =>
    simp only [firstMin]
    cases ht : firstMin t with
    | none => simp
    | some m2 => by_cases hk : keyLe x m2 <;> simp [hk]

theorem firstMin_mem {l : List Route} {m : Route}
    (h : firstMin l = some m) : m ∈ l := by
  induction l with
  | nil => simp [firstMin] at h
  | cons x t ih =>
    cases ht : firstMin t with
    | none =>
      simp only [firstMin, ht] at h
      cases h
      exact List.mem_cons_self _ _
    | some m2 =>
      simp only [firstMin, ht] at h
      by_cases hk : keyLe x m2
      · rw [if_pos hk] at h
        cases h
        exact List.mem_cons_self _ _
      · rw [if_neg hk] at h
        cases h
        exact List.mem_cons_of_mem _ (ih ht)

theorem firstMin_min {l : List Route} :
    ∀ {m : Route}, firstMin l = some m → ∀ r ∈ l, keyLe m r = true := by
  induction l with
  | nil => intro m h; simp [firstMin] at h
  | cons x t ih =>
    intro m h
    cases ht : firstMin t with
    | none =>
      simp only [firstMin, ht] at h
      cases h
      have ht2 : t = [] := firstMin_eq_none.mp ht
      subst ht2
      intro r hr
      rcases List.mem_cons.mp hr with rfl | hr
      · exact keyLe_refl _
      · simp at hr
    | some m2 =>
      simp only [firstMin, ht] at h
      by_cases hk : keyLe x m2
      · rw [if_pos hk] at h
        cases h
        intro r hr
        rcases List.mem_cons.mp hr with rfl | hr
        · exact keyLe_refl _
        · exact keyLe_trans hk (ih ht r hr)
      · rw [if_neg hk] at h
        cases h
        intro r hr
        rcases List.mem_cons.mp hr with rfl | hr
        · exact keyLe_of_not _ _ hk
        · exact ih ht r hr

theorem firstMin_append_cons (l1 : List Route) (m : Route)
    (l2 : List Route) (hmin : ∀ r ∈ l2, keyLe m r = true)
    (hstrict : ∀ r ∈ l1, keyLe r m = false) :
    firstMin (l1 ++ m :: l2) = some m := by
  induction l1 with
  | nil =>
    rw [List.nil_append]
    cases h2 : firstMin l2 with
    | none => simp only [firstMin, h2]
    | some m2 =>
      simp only [firstMin, h2]
      rw [if_pos (hmin m2 (firstMin_mem h2))]
  | cons x t ih =>
    have hres := ih fun r hr => hstrict r (List.mem_cons_of_mem _ hr)
    rw [List.cons_append]
    simp only [firstMin, hres]
    rw [if_neg]
    intro hcon
    have hx := hstrict x (List.mem_cons_self _ _)
    rw [hcon] at hx
    cases hx

/-! ## Claims C1, C2, C8: longest-prefix match -/

/-- C1: `longest_prefix_match` considers exactly the routes whose CIDR
block contains the destination (`network ≤ D ≤ broadcast`), orders them
by prefix length descending then metric ascending, and returns the first
as best — so the best route beats every match either by a strictly
longer prefix, or by an equal prefix and a metric no larger. -/
theorem C1_longest_prefix_match (routes : List Route) (ip : Nat) :
    ((longest_prefix_match routes ip).2).Perm
      (routes.filter (fun r => r.dest.containsIp ip)) ∧
    ((longest_prefix_match routes ip).2).Pairwise
      (fun a b => keyLe a b = true) ∧
    (longest_prefix_match routes ip).1 =
      ((longest_prefix_match routes ip).2).head? ∧
    (∀ r ∈ routes, r.dest.containsIp ip = true →
      ∃ b, (longest_prefix_match routes ip).1 = some b ∧ b ∈ routes ∧
        b.dest.containsIp ip = true ∧
        (r.dest.len < b.dest.len ∨
          (b.dest.len = r.dest.len ∧ b.metric ≤ r.metric))) := by
  refine ⟨sortRoutes_perm _, sortRoutes_pairwise _, rfl, ?_⟩
  intro r hr hc
  have hmem : r ∈ routes.filter (fun r => r.dest.containsIp ip) :=
    List.mem_filter.mpr ⟨hr, hc⟩
  have hne : routes.filter (fun r => r.dest.containsIp ip) ≠ [] :=
    fun hnil => by simp [hnil] at hmem
  have hfm : (longest_prefix_match routes ip).1 =
      firstMin (routes.filter (fun r => r.dest.containsIp ip)) :=
    head?_sortRoutes _
  cases hb : firstMin (routes.filter (fun r => r.dest.containsIp ip)) with
  | none => exact absurd (firstMin_eq_none.mp hb) hne
  | some b =>
    have hbf := firstMin_mem hb
    have hble := firstMin_min hb r hmem
    rcases List.mem_filter.mp hbf with ⟨hbr, hbc⟩
    refine ⟨b, hfm.trans hb, hbr, hbc, ?_⟩
    simp only [keyLe, Bool.or_eq_true, Bool.and_eq_true,
      decide_eq_true_eq] at hble
    omega

/-- Witness for C1 at the spec's scenario: routes `0.0.0.0/0` metric 10,
`10.0.0.0/8` metric 5, `10.1.0.0/16` metric 20, destination `10.1.2.3`:
the best route beats the matching `/8` route on prefix length. -/
theorem C1_longest_prefix_match_witness :
    ∃ b, (longest_prefix_match
        [⟨⟨0, 0⟩, "10.0.0.1", "eth0", 10, "Default"⟩,
         ⟨⟨167772160, 8⟩, "10.0.1.1", "eth1", 5, ""⟩,
         ⟨⟨167837696, 16⟩, "192.168.0.1", "eth2", 20, ""⟩]
        167838211).1 = some b ∧
      b ∈ [⟨⟨0, 0⟩, "10.0.0.1", "eth0", 10, "Default"⟩,
         ⟨⟨167772160, 8⟩, "10.0.1.1", "eth1", 5, ""⟩,
         ⟨⟨167837696, 16⟩, "192.168.0.1", "eth2", 20, ""⟩] ∧
      b.dest.containsIp 167838211 = true ∧
      ((8 : Nat) < b.dest.len ∨ (b.dest.len = 8 ∧ b.metric ≤ 5)) :=
  (C1_longest_prefix_match _ 167838211).2.2.2
    ⟨⟨167772160, 8⟩, "10.0.1.1", "eth1", 5, ""⟩
    (by decide) (by decide)

/-- C2: when no route's CIDR block contains the destination,
`longest_prefix_match` returns `best = None` rather than raising; it
never returns a non-matching route; and a `0.0.0.0/0` default route
always matches, so no-match is only possible without one. -/
theorem C2_no_match_returns_none (routes : List Route) (ip : Nat) :
    ((∀ r ∈ routes, r.dest.containsIp ip = false) →
      (longest_prefix_match routes ip).1 = none) ∧
    (∀ b, (longest_prefix_match routes ip).1 = some b →
      b ∈ routes ∧ b.dest.containsIp ip = true) ∧
    ((∃ r ∈ routes, r.dest = ⟨0, 0⟩) → ip < 2 ^ 32 →
      (longest_prefix_match routes ip).1 ≠ none) := by
  refine ⟨?_, ?_, ?_⟩
  · intro hnone
    have hfil : routes.filter (fun r => r.dest.containsIp ip) = [] := by
      rw [List.filter_eq_nil_iff]
      intro r hr
      simp [hnone r hr]
    show (sortRoutes (routes.filter (fun r => r.dest.containsIp ip))).head? = none
    rw [hfil]
    rfl
  · intro b hb
    have hfm : (longest_prefix_match routes ip).1 =
        firstMin (routes.filter (fun r => r.dest.containsIp ip)) :=
      head?_sortRoutes _
    rw [hfm] at hb
    have := List.mem_filter.mp (firstMin_mem hb)
    exact ⟨this.1, this.2⟩
  · rintro ⟨r, hr, hdef⟩ hip
    have hc : r.dest.containsIp ip = true := by
      rw [hdef]
      simp only [Net.containsIp, Net.bcast, Bool.and_eq_true,
        decide_eq_true_eq]
      have h1 : hostmaskInt 0 = 2 ^ 32 - 1 := by decide
      rw [h1, Nat.zero_or]
      omega
    have hmem : r ∈ routes.filter (fun r => r.dest.containsIp ip) :=
      List.mem_filter.mpr ⟨hr, hc⟩
    have hfm : (longest_prefix_match routes ip).1 =
        firstMin (routes.filter (fun r => r.dest.containsIp ip)) :=
      head?_sortRoutes _
    rw [hfm]
    intro hnone
    rw [firstMin_eq_none.mp hnone] at hmem
    simp at hmem

/-- Witness for C2: a single non-default route never matching the
destination yields `best = None`. -/
theorem C2_no_match_returns_none_witness :
    (longest_prefix_match
      [⟨⟨3232235776, 24⟩, "10.0.0.1", "eth0", 1, ""⟩] 167838211).1 =
      none :=
  (C2_no_match_returns_none
    [⟨⟨3232235776, 24⟩, "10.0.0.1", "eth0", 1, ""⟩] 167838211).1
    (by decide)

/-- C8: `longest_prefix_match` is deterministic for a fixed input, and —
because the sort is stable over the fixed input ordering — when a
matching route `r1` precedes a matching route `r2` that ties it on both
prefix length and metric, and `r1` attains the best key while no earlier
matching route does, the earlier route `r1` is the one selected. -/
theorem C8_deterministic_stable_tie (routes : List Route) (ip : Nat)
    (l1 l2 l3 : List Route) (r1 r2 : Route)
    (hsplit : routes = l1 ++ r1 :: (l2 ++ r2 :: l3))
    (h1 : r1.dest.containsIp ip = true)
    (h2 : r2.dest.containsIp ip = true)
    (hp : r1.dest.len = r2.dest.len) (hm : r1.metric = r2.metric)
    (hbest : ∀ r ∈ routes, r.dest.containsIp ip = true →
      keyLe r1 r = true)
    (hfirst : ∀ r ∈ l1, r.dest.containsIp ip = true →
      keyLe r r1 = false) :
    longest_prefix_match routes ip = longest_prefix_match routes ip ∧
    (longest_prefix_match routes ip).1 = some r1 := by
  refine ⟨rfl, ?_⟩
  have hfm : (longest_prefix_match routes ip).1 =
      firstMin (routes.filter (fun r => r.dest.containsIp ip)) :=
    head?_sortRoutes _
  rw [hfm, hsplit, List.filter_append,
    @List.filter_cons_of_pos Route (fun r => r.dest.containsIp ip) r1
      (l2 ++ r2 :: l3) h1]
  apply firstMin_append_cons
  · intro r hrf
    rcases List.mem_filter.mp hrf with ⟨hrmem, hrc⟩
    refine hbest r ?_ hrc
    rw [hsplit]
    exact List.mem_append_right _ (List.mem_cons_of_mem _ hrmem)
  · intro r hrf
    rcases List.mem_filter.mp hrf with ⟨hrmem, hrc⟩
    exact hfirst r hrmem hrc

/-- Witness for C8: two routes with identical destination and metric,
differing only in next hop; the one listed first is selected. -/
theorem C8_deterministic_stable_tie_witness :
    (longest_prefix_match
      [⟨⟨3232235776, 24⟩, "10.0.0.1", "eth0", 5, "Tie A"⟩,
       ⟨⟨3232235776, 24⟩, "10.0.1.1", "eth1", 5, "Tie B"⟩]
      3232235781).1 =
      some ⟨⟨3232235776, 24⟩, "10.0.0.1", "eth0", 5, "Tie A"⟩ :=
  (C8_deterministic_stable_tie _ 3232235781 [] [] []
    ⟨⟨3232235776, 24⟩, "10.0.0.1", "eth0", 5, "Tie A"⟩
    ⟨⟨3232235776, 24⟩, "10.0.1.1", "eth1", 5, "Tie B"⟩
    rfl (by decide) (by decide) rfl rfl (by decide)
    (by intro r hr; simp at hr)).2

/-! ## Claim C10: the de-duplicated routing table -/

theorem dedup_dest_unique {acc : List Route}
    (hpw : acc.Pairwise (fun a b => a.dest ≠ b.dest))
    {x y : Route} (hx : x ∈ acc) (hy : y ∈ acc) (hd : x.dest = y.dest) :
    x = y := by
  by_contra hne
  have hsym : Symmetric fun a b : Route => a.dest ≠ b.dest := by
    intro a b hab hba
    exact hab hba.symm
  exact List.Pairwise.forall hsym hpw hx hy hne hd

theorem dedupStep_inv {acc done : List Route} (r : Route)
    (h : DedupInv acc done) : DedupInv (dedupStep acc r) (done ++ [r]) := by
  obtain ⟨hpw, hmem, hrep⟩ := h
  cases hf : acc.find? (fun x => decide (x.dest = r.dest)) with
  | none =>
    simp only [dedupStep, hf]
    have hnod : ∀ x ∈ acc, ¬x.dest = r.dest := by
      intro x hx
      have hq := List.find?_eq_none.mp hf x hx
      simpa using hq
    refine ⟨?_, ?_, ?_⟩
    · rw [List.pairwise_append]
      refine ⟨hpw, List.pairwise_singleton _ _, ?_⟩
      intro a ha b hb
      rw [List.mem_singleton] at hb
      rw [hb]
      exact hnod a ha
    · intro y hy
      rcases List.mem_append.mp hy with hya | hyr
      · obtain ⟨hyd, hym⟩ := hmem y hya
        refine ⟨List.mem_append_left _ hyd, ?_⟩
        intro s hs hsd
        rcases List.mem_append.mp hs with hsa | hsr
        · exact hym s hsa hsd
        · rw [List.mem_singleton] at hsr
          rw [hsr] at hsd
          exact absurd hsd.symm (hnod y hya)
      · rw [List.mem_singleton] at hyr
        rw [hyr]
        refine ⟨List.mem_append_right _ (List.mem_singleton_self _), ?_⟩
        intro s hs hsd
        rcases List.mem_append.mp hs with hsa | hsr
        · obtain ⟨t, hta, htd⟩ := hrep s hsa
          exact absurd (htd.trans hsd) (hnod t hta)
        · rw [List.mem_singleton] at hsr
          rw [hsr]
    · intro s hs
      rcases List.mem_append.mp hs with hsa | hsr
      · obtain ⟨t, hta, htd⟩ := hrep s hsa
        exact ⟨t, List.mem_append_left _ hta, htd⟩
      · rw [List.mem_singleton] at hsr
        rw [hsr]
        exact ⟨r, List.mem_append_right _ (List.mem_singleton_self _), rfl⟩
  | some x =>
    simp only [dedupStep, hf]
    have hxacc : x ∈ acc := List.mem_of_find?_eq_some hf
    have hxd : x.dest = r.dest := by
      have hq := List.find?_some hf
      simpa using hq
    have hdest : ∀ y : Route,
        (if y.dest = r.dest then r else y).dest = y.dest := by
      intro y
      by_cases hyd : y.dest = r.dest
      · rw [if_pos hyd, hyd]
      · rw [if_neg hyd]
    by_cases hlt : r.metric < x.metric
    · rw [if_pos hlt]
      refine ⟨?_, ?_, ?_⟩
      · rw [List.pairwise_map]
        refine hpw.imp ?_
        intro a b hab
        rw [hdest a, hdest b]
        exact hab
      · intro y hy
        rcases List.mem_map.mp hy with ⟨z, hza, hzf⟩
        by_cases hzd : z.dest = r.dest
        · rw [if_pos hzd] at hzf
          subst hzf
          refine ⟨List.mem_append_right _ (List.mem_singleton_self _), ?_⟩
          intro s hs hsd
          rcases List.mem_append.mp hs with hsa | hsr
          · have hxm := (hmem x hxacc).2 s hsa (hsd.trans hxd.symm)
            omega
          · rw [List.mem_singleton] at hsr
            rw [hsr]
        · rw [if_neg hzd] at hzf
          subst hzf
          obtain ⟨hzdone, hzm⟩ := hmem z hza
          refine ⟨List.mem_append_left _ hzdone, ?_⟩
          intro s hs hsd
          rcases List.mem_append.mp hs with hsa | hsr
          · exact hzm s hsa hsd
          · rw [List.mem_singleton] at hsr
            rw [hsr] at hsd
            exact absurd hsd.symm hzd
      · intro s hs
        rcases List.mem_append.mp hs with hsa | hsr
        · obtain ⟨t, hta, htd⟩ := hrep s hsa
          refine ⟨if t.dest = r.dest then r else t,
            List.mem_map.mpr ⟨t, hta, rfl⟩, ?_⟩
          rw [hdest t]
          exact htd
        · rw [List.mem_singleton] at hsr
          rw [hsr]
          refine ⟨if x.dest = r.dest then r else x,
            List.mem_map.mpr ⟨x, hxacc, rfl⟩, ?_⟩
          rw [hdest x, hxd]
    · rw [if_neg hlt]
      refine ⟨hpw, ?_, ?_⟩
      · intro y hy
        obtain ⟨hydone, hym⟩ := hmem y hy
        refine ⟨List.mem_append_left _ hydone, ?_⟩
        intro s hs hsd
        rcases List.mem_append.mp hs with hsa | hsr
        · exact hym s hsa hsd
        · rw [List.mem_singleton] at hsr
          rw [hsr] at hsd
          rw [hsr]
          have hyx : y = x :=
            dedup_dest_unique hpw hy hxacc (hsd.symm.trans hxd.symm)
          rw [hyx]
          omega
      · intro s hs
        rcases List.mem_append.mp hs with hsa | hsr
        · exact hrep s hsa
        · rw [List.mem_singleton] at hsr
          rw [hsr]
          exact ⟨x, hxacc, hxd⟩

theorem dedup_foldl_inv :
    ∀ (rs : List Route) (acc done : List Route), DedupInv acc done →
      DedupInv (rs.foldl dedupStep acc) (done ++ rs) := by
  intro rs
  induction rs with
  | nil =>
    intro acc done h
    simpa using h
  | cons r t ih =>
    intro acc done h
    have h2 := dedupStep_inv r h
    have h3 := ih (dedupStep acc r) (done ++ [r]) h2
    rw [List.append_assoc] at h3
    simpa using h3

theorem dedupRoutes_inv (routes : List Route) :
    DedupInv (dedupRoutes routes) routes := by
  have h0 : DedupInv [] [] := by
    refine ⟨List.Pairwise.nil, ?_, ?_⟩ <;> simp
  have h1 := dedup_foldl_inv routes [] [] h0
  simpa [dedupRoutes] using h1

theorem preDedupRoutes_mem (difficulty : Nat) (defaultRoute : Route)
    (gens : List Route) (tieBase : Net) (tnh1 ti1 tnh2 ti2 : String)
    {s : Route}
    (hs : s ∈ preDedupRoutes difficulty defaultRoute gens tieBase
      tnh1 ti1 tnh2 ti2) :
    s = defaultRoute ∨ s ∈ gens ∨ s = tieRouteA tieBase tnh1 ti1 ∨
      s = tieRouteB tieBase tnh2 ti2 := by
  simp only [preDedupRoutes] at hs
  by_cases hc : 3 ≤ difficulty ∧ 3 ≤ (defaultRoute :: gens).length
  · rw [if_pos hc] at hs
    rcases List.mem_append.mp hs with h1 | h2
    · rcases List.mem_cons.mp h1 with h | h
      · exact Or.inl h
      · exact Or.inr (Or.inl h)
    · rcases List.mem_cons.mp h2 with h | h
      · exact Or.inr (Or.inr (Or.inl h))
      · rw [List.mem_singleton] at h
        exact Or.inr (Or.inr (Or.inr h))
  · rw [if_neg hc] at hs
    rcases List.mem_cons.mp hs with h | h
    · exact Or.inl h
    · exact Or.inr (Or.inl h)

theorem defaultRoute_mem_preDedup (difficulty : Nat)
    (defaultRoute : Route) (gens : List Route) (tieBase : Net)
    (tnh1 ti1 tnh2 ti2 : String) :
    defaultRoute ∈ preDedupRoutes difficulty defaultRoute gens tieBase
      tnh1 ti1 tnh2 ti2 := by
  simp only [preDedupRoutes]
  by_cases hc : 3 ≤ difficulty ∧ 3 ≤ (defaultRoute :: gens).length
  · rw [if_pos hc]
    exact List.mem_append_left _ (List.mem_cons_self _ _)
  · rw [if_neg hc]
    exact List.mem_cons_self _ _

/-- C10 (amended): every table returned by `build_routing_table` — under
any final shuffle — keeps exactly one route per distinct destination:
destinations are pairwise distinct, every kept route is one of the
assembled routes with the minimal metric among the routes sharing its
destination, and every assembled destination is represented in the
table.  The table contains exactly one default `0.0.0.0/0` route.  At difficulty ≥ 3 the metric-10 tie route never survives
de-duplication, and the metric-5 tie route appears in the table whenever
no generated route shares the tie destination with a metric of 5 or
less; a generated duplicate of the tie destination with a smaller
metric displaces it. -/
theorem C10_amended_dedup_invariants (difficulty : Nat)
    (defaultRoute : Route) (gens : List Route) (tieBase : Net)
    (tnh1 ti1 tnh2 ti2 : String) (out : List Route)
    (hout : out.Perm (build_routing_table difficulty defaultRoute gens
      tieBase tnh1 ti1 tnh2 ti2))
    (hdef : defaultRoute.dest = ⟨0, 0⟩)
    (hgens : ∀ g ∈ gens, 8 ≤ g.dest.len ∧ g.dest.len ≤ 28)
    (htie : 20 ≤ tieBase.len ∧ tieBase.len ≤ 26) :
    out.Pairwise (fun a b => a.dest ≠ b.dest) ∧
    (∀ r ∈ out,
      r ∈ preDedupRoutes difficulty defaultRoute gens tieBase
        tnh1 ti1 tnh2 ti2 ∧
      ∀ s ∈ preDedupRoutes difficulty defaultRoute gens tieBase
        tnh1 ti1 tnh2 ti2, s.dest = r.dest → r.metric ≤ s.metric) ∧
    (∀ s ∈ preDedupRoutes difficulty defaultRoute gens tieBase
      tnh1 ti1 tnh2 ti2, ∃ r ∈ out, r.dest = s.dest) ∧
    (∃ r, r ∈ out ∧ r.dest.len = 0 ∧
      ∀ s ∈ out, s.dest.len = 0 → s = r) ∧
    (3 ≤ difficulty → 2 ≤ gens.length →
      tieRouteA tieBase tnh1 ti1 ∉ out ∧
      ((∀ g ∈ gens, g.dest = tieBase → 5 < g.metric) →
        tieRouteB tieBase tnh2 ti2 ∈ out)) := by
  obtain ⟨hpw, hmem, hrep⟩ := dedupRoutes_inv (preDedupRoutes difficulty
    defaultRoute gens tieBase tnh1 ti1 tnh2 ti2)
  have hbuild : build_routing_table difficulty defaultRoute gens tieBase
      tnh1 ti1 tnh2 ti2 = dedupRoutes (preDedupRoutes difficulty
      defaultRoute gens tieBase tnh1 ti1 tnh2 ti2) := rfl
  rw [hbuild] at hout
  have hmm : ∀ z : Route, z ∈ out ↔ z ∈ dedupRoutes (preDedupRoutes
      difficulty defaultRoute gens tieBase tnh1 ti1 tnh2 ti2) :=
    fun z => hout.mem_iff
  have honly_default : ∀ s ∈ preDedupRoutes difficulty defaultRoute gens
      tieBase tnh1 ti1 tnh2 ti2, s.dest.len = 0 → s = defaultRoute := by
    intro s hs hlen
    rcases preDedupRoutes_mem difficulty defaultRoute gens tieBase
      tnh1 ti1 tnh2 ti2 hs with h | h | h | h
    · exact h
    · have := hgens s h
      omega
    · rw [h] at hlen
      simp only [tieRouteA] at hlen
      omega
    · rw [h] at hlen
      simp only [tieRouteB] at hlen
      omega
  refine ⟨?_, ?_, ?_, ?_, ?_⟩
  · have hsym : Symmetric fun a b : Route => a.dest ≠ b.dest := by
      intro a b hab hba
      exact hab hba.symm
    exact (hout.pairwise_iff fun hab hba => hab hba.symm).mpr hpw
  · intro r hr
    exact hmem r ((hmm r).mp hr)
  · intro s hs
    obtain ⟨t, hta, htd⟩ := hrep s hs
    exact ⟨t, (hmm t).mpr hta, htd⟩
  · obtain ⟨t, hta, htd⟩ := hrep defaultRoute
      (defaultRoute_mem_preDedup difficulty defaultRoute gens tieBase
        tnh1 ti1 tnh2 ti2)
    have htlen : t.dest.len = 0 := by
      rw [htd, hdef]
    have htdef : t = defaultRoute :=
      honly_default t (hmem t hta).1 htlen
    refine ⟨t, (hmm t).mpr hta, htlen, ?_⟩
    intro s hs hslen
    have hsdef : s = defaultRoute :=
      honly_default s (hmem s ((hmm s).mp hs)).1 hslen
    rw [hsdef, htdef]
  · intro h3 hlen2
    have hc : 3 ≤ difficulty ∧ 3 ≤ (defaultRoute :: gens).length := by
      refine ⟨h3, ?_⟩
      simp only [List.length_cons]
      omega
    have hpre : preDedupRoutes difficulty defaultRoute gens tieBase
        tnh1 ti1 tnh2 ti2 = (defaultRoute :: gens) ++
        [tieRouteA tieBase tnh1 ti1, tieRouteB tieBase tnh2 ti2] := by
      simp only [preDedupRoutes]
      rw [if_pos hc]
    have htieBmem : tieRouteB tieBase tnh2 ti2 ∈ preDedupRoutes
        difficulty defaultRoute gens tieBase tnh1 ti1 tnh2 ti2 := by
      rw [hpre]
      refine List.mem_append_right _ ?_
      exact List.mem_cons_of_mem _ (List.mem_singleton_self _)
    constructor
    · intro habs
      have h10 := (hmem _ ((hmm _).mp habs)).2
        (tieRouteB tieBase tnh2 ti2) htieBmem rfl
      simp only [tieRouteA, tieRouteB] at h10
      omega
    · intro hcond
      obtain ⟨t, hta, htd⟩ := hrep (tieRouteB tieBase tnh2 ti2) htieBmem
      have htpre := (hmem t hta).1
      have htmin := (hmem t hta).2 (tieRouteB tieBase tnh2 ti2) htieBmem
        htd.symm
      have htB : t.metric ≤ 5 := by
        simpa only [tieRouteB] using htmin
      have htdest : t.dest = tieBase := htd
      rcases preDedupRoutes_mem difficulty defaultRoute gens tieBase
        tnh1 ti1 tnh2 ti2 htpre with h | h | h | h
      · rw [h, hdef] at htdest
        have : (0 : Nat) = tieBase.len := congrArg Net.len htdest
        omega
      · have := hcond t h htdest
        omega
      · exfalso
        rw [h] at htB
        simp [tieRouteA] at htB
      · rw [← h]
        exact (hmm t).mpr hta

/-- Counterexample to C10 as stated: at difficulty 3, when one of the
randomly generated routes happens to share the tie destination
(10.0.0.0/24) with a strictly smaller metric (here 2), de-duplication
keeps that generated route, so the metric-5 "Tie B" route does **not**
appear in the returned table (while the metric-2 duplicate does). -/
theorem C10_counterexample :
    tieRouteB ⟨167772160, 24⟩ "192.168.0.1" "eth2" ∉
      build_routing_table 3 ⟨⟨0, 0⟩, "10.0.1.1", "eth0", 4, "Default"⟩
        [⟨⟨167772160, 24⟩, "10.0.0.1", "eth0", 2, ""⟩,
         ⟨⟨3232235520, 16⟩, "10.0.1.1", "eth1", 7, ""⟩,
         ⟨⟨167772160, 8⟩, "192.168.0.1", "eth2", 12, ""⟩,
         ⟨⟨2886729728, 12⟩, "172.16.0.1", "wan0", 9, ""⟩,
         ⟨⟨3325256704, 24⟩, "203.0.113.1", "lan0", 3, ""⟩,
         ⟨⟨3405803776, 24⟩, "198.51.100.1", "uplink", 15, ""⟩,
         ⟨⟨167837696, 16⟩, "10.0.0.1", "dmz0", 20, ""⟩]
        ⟨167772160, 24⟩ "10.0.0.1" "eth1" "192.168.0.1" "eth2" ∧
    ⟨⟨167772160, 24⟩, "10.0.0.1", "eth0", 2, ""⟩ ∈
      build_routing_table 3 ⟨⟨0, 0⟩, "10.0.1.1", "eth0", 4, "Default"⟩
        [⟨⟨167772160, 24⟩, "10.0.0.1", "eth0", 2, ""⟩,
         ⟨⟨3232235520, 16⟩, "10.0.1.1", "eth1", 7, ""⟩,
         ⟨⟨167772160, 8⟩, "192.168.0.1", "eth2", 12, ""⟩,
         ⟨⟨2886729728, 12⟩, "172.16.0.1", "wan0", 9, ""⟩,
         ⟨⟨3325256704, 24⟩, "203.0.113.1", "lan0", 3, ""⟩,
         ⟨⟨3405803776, 24⟩, "198.51.100.1", "uplink", 15, ""⟩,
         ⟨⟨167837696, 16⟩, "10.0.0.1", "dmz0", 20, ""⟩]
        ⟨167772160, 24⟩ "10.0.0.1" "eth1" "192.168.0.1" "eth2" := by
  decide

/-- Witness for the amended C10 at a concrete difficulty-3 table whose
generated routes avoid the tie destination: the metric-10 tie route is
dropped, the metric-5 tie route is kept. -/
theorem C10_amended_dedup_invariants_witness :
    tieRouteA ⟨167772160, 24⟩ "10.0.0.1" "eth1" ∉
      build_routing_table 3 ⟨⟨0, 0⟩, "10.0.1.1", "eth0", 4, "Default"⟩
        [⟨⟨167772416, 24⟩, "10.0.0.1", "eth0", 2, ""⟩,
         ⟨⟨3232235520, 16⟩, "10.0.1.1", "eth1", 7, ""⟩,
         ⟨⟨167772160, 8⟩, "192.168.0.1", "eth2", 12, ""⟩,
         ⟨⟨2886729728, 12⟩, "172.16.0.1", "wan0", 9, ""⟩,
         ⟨⟨3325256704, 24⟩, "203.0.113.1", "lan0", 3, ""⟩,
         ⟨⟨3405803776, 24⟩, "198.51.100.1", "uplink", 15, ""⟩,
         ⟨⟨167837696, 16⟩, "10.0.0.1", "dmz0", 20, ""⟩]
        ⟨167772160, 24⟩ "10.0.0.1" "eth1" "192.168.0.1" "eth2" ∧
    tieRouteB ⟨167772160, 24⟩ "192.168.0.1" "eth2" ∈
      build_routing_table 3 ⟨⟨0, 0⟩, "10.0.1.1", "eth0", 4, "Default"⟩
        [⟨⟨167772416, 24⟩, "10.0.0.1", "eth0", 2, ""⟩,
         ⟨⟨3232235520, 16⟩, "10.0.1.1", "eth1", 7, ""⟩,
         ⟨⟨167772160, 8⟩, "192.168.0.1", "eth2", 12, ""⟩,
         ⟨⟨2886729728, 12⟩, "172.16.0.1", "wan0", 9, ""⟩,
         ⟨⟨3325256704, 24⟩, "203.0.113.1", "lan0", 3, ""⟩,
         ⟨⟨3405803776, 24⟩, "198.51.100.1", "uplink", 15, ""⟩,
         ⟨⟨167837696, 16⟩, "10.0.0.1", "dmz0", 20, ""⟩]
        ⟨167772160, 24⟩ "10.0.0.1" "eth1" "192.168.0.1" "eth2" := by
  obtain ⟨-, -, -, -, h4⟩ := C10_amended_dedup_invariants 3
    ⟨⟨0, 0⟩, "10.0.1.1", "eth0", 4, "Default"⟩
    [⟨⟨167772416, 24⟩, "10.0.0.1", "eth0", 2, ""⟩,
     ⟨⟨3232235520, 16⟩, "10.0.1.1", "eth1", 7, ""⟩,
     ⟨⟨167772160, 8⟩, "192.168.0.1", "eth2", 12, ""⟩,
     ⟨⟨2886729728, 12⟩, "172.16.0.1", "wan0", 9, ""⟩,
     ⟨⟨3325256704, 24⟩, "203.0.113.1", "lan0", 3, ""⟩,
     ⟨⟨3405803776, 24⟩, "198.51.100.1", "uplink", 15, ""⟩,
     ⟨⟨167837696, 16⟩, "10.0.0.1", "dmz0", 20, ""⟩]
    ⟨167772160, 24⟩ "10.0.0.1" "eth1" "192.168.0.1" "eth2" _
    (List.Perm.refl _) rfl (by decide) (by decide)
  obtain ⟨ha, hb⟩ := h4 (by norm_num) (by decide)
  exact ⟨ha, hb (by decide)⟩

/-- Witness for C6 at `192.168.35.67/20`. -/
theorem C6_host_range_witness :
    host_range (fromOctets 192 168 35 67) 20 =
      some (networkInt (fromOctets 192 168 35 67) 20 + 1,
        broadcastInt (fromOctets 192 168 35 67) 20 - 1) :=
  (C6_host_range (fromOctets 192 168 35 67) 20
    (by norm_num [fromOctets]) (by norm_num)).2 (by norm_num)
